import Mathlib

/-!
Verification development for the version-lsp repository.

Strings from the Rust sources are modelled as `List Char` (Rust `&str` is a
byte sequence; all inputs of interest are ASCII, so byte offsets coincide with
character offsets).  Machine integers (`u64`, `usize`) are modelled as `Nat`;
none of the verified code paths can overflow on the inputs the claims range
over.  Fallible operations return `Option`.

The `semver` crate's `Version` is modelled with its major/minor/patch numbers,
pre-release identifiers and build metadata, ordered as the crate's `Ord`
instance orders them: major, minor, patch, then pre-release by SemVer
precedence (numeric identifiers below alphanumeric ones, a release above any
of its pre-releases), then build metadata as a final tiebreaker.  The crate
keeps `BuildMetadata` as a raw string and, when comparing, splits it on dots
and treats an all-digit identifier numerically (with its length as the last
resort, so `0 < 00 < 1 < 01`); an absent build sorts first because the empty
string vacuously counts as all-digit.  `Eq` distinguishes build metadata, as
in the crate.
-/

namespace VersionLsp

/-- Shorthand to write character-list literals. -/
def str (s : String) : List Char := s.toList

/-- Model of Rust `str::trim`: drop whitespace from both ends. -/
def trimList (cs : List Char) : List Char :=
  ((cs.dropWhile Char.isWhitespace).reverse.dropWhile Char.isWhitespace).reverse

/-- Model of Rust `str::strip_prefix`: remove `p` from the front of `s`, or fail. -/
def stripPfx : List Char → List Char → Option (List Char)
| [], s => some s
| _ :: _, [] => none
| p :: ps, c :: cs => if p = c then stripPfx ps cs else none

/-- Model of Rust `str::split(sep)`: split into pieces between occurrences of `sep`. -/
def splitOnChar (sep : Char) (cs : List Char) : List (List Char) :=
  cs.foldr
    (fun c acc =>
      if c = sep then [] :: acc
      else
        match acc with
        | [] => [[c]]
        | h :: t => (c :: h) :: t)
    [[]]

/-- Numeric value of a digit string (used only on all-digit inputs). -/
def digitsToNat (cs : List Char) : Nat :=
  cs.foldl (fun n c => n * 10 + (c.toNat - '0'.toNat)) 0

/-- Three-way comparison on `Nat` by explicit case split (kernel-friendly). -/
def natCmp (a b : Nat) : Ordering :=
  if a = b then Ordering.eq else if a < b then Ordering.lt else Ordering.gt

/-- Three-way comparison on `Char` by code point. -/
def charCmp (a b : Char) : Ordering :=
  if a = b then Ordering.eq else if a.toNat < b.toNat then Ordering.lt else Ordering.gt

/-- Lexicographic comparison of character lists (ASCII order, as in the semver crate). -/
def listCharCmp : List Char → List Char → Ordering
| [], [] => Ordering.eq
| [], _ :: _ => Ordering.lt
| _ :: _, [] => Ordering.gt
| a :: xs, b :: ys =>
  match charCmp a b with
  | Ordering.eq => listCharCmp xs ys
  | o => o

/-- One pre-release identifier of a semver version: numeric or alphanumeric
(semver crate `Prerelease` identifiers). -/
inductive PreId where
| num (n : Nat) : PreId
| alpha (s : List Char) : PreId
deriving DecidableEq

/-- SemVer precedence on pre-release identifiers: numeric identifiers compare
numerically and are below alphanumeric ones; alphanumeric compare in ASCII order. -/
def PreId.cmp : PreId → PreId → Ordering
| PreId.num a, PreId.num b => natCmp a b
| PreId.num _, PreId.alpha _ => Ordering.lt
| PreId.alpha _, PreId.num _ => Ordering.gt
| PreId.alpha a, PreId.alpha b => listCharCmp a b

/-- Lexicographic comparison of pre-release identifier lists; a strict prefix
compares below the longer list (SemVer rule 11.4.4). -/
def preListCmp : List PreId → List PreId → Ordering
| [], [] => Ordering.eq
| [], _ :: _ => Ordering.lt
| _ :: _, [] => Ordering.gt
| a :: xs, b :: ys =>
  match PreId.cmp a b with
  | Ordering.eq => preListCmp xs ys
  | o => o

/-- One build-metadata identifier comparison of the semver crate's
`Ord for BuildMetadata`: when both identifiers are all-digit (vacuously true
for the empty string), compare the zero-trimmed value by length then
lexically, with the untrimmed length as the last resort (`0 < 00 < 1 < 01`);
all-digit sorts below alphanumeric; otherwise compare in ASCII order. -/
def buildIdCmp (a b : List Char) : Ordering :=
  match a.all Char.isDigit, b.all Char.isDigit with
  | true, true =>
    match natCmp (a.dropWhile (fun c => c = '0')).length
        (b.dropWhile (fun c => c = '0')).length with
    | Ordering.eq =>
      match listCharCmp (a.dropWhile (fun c => c = '0'))
          (b.dropWhile (fun c => c = '0')) with
      | Ordering.eq => natCmp a.length b.length
      | o => o
    | o => o
  | true, false => Ordering.lt
  | false, true => Ordering.gt
  | false, false => listCharCmp a b

/-- Lexicographic comparison of build identifier lists, a strict prefix
below the longer list (the crate's loop returns Greater when the right side
runs out first, Less when the left does). -/
def buildListCmp : List (List Char) → List (List Char) → Ordering
| [], [] => Ordering.eq
| [], _ :: _ => Ordering.lt
| _ :: _, [] => Ordering.gt
| a :: xs, b :: ys =>
  match buildIdCmp a b with
  | Ordering.eq => buildListCmp xs ys
  | o => o

/-- `Ord for semver::BuildMetadata`: split the raw strings on dots and compare
identifier by identifier.  The empty string splits into one empty piece, which
counts as all-digit, so an absent build sorts below any nonempty one. -/
def buildCmp (a b : List Char) : Ordering :=
  buildListCmp (splitOnChar '.' a) (splitOnChar '.' b)

/-- `Ord for semver::Prerelease`: a release (empty pre-release) is above any
pre-release; two nonempty pre-releases compare identifier by identifier. -/
def prereleaseCmp (p q : List PreId) : Ordering :=
  match p, q with
  | [], [] => Ordering.eq
  | [], _ :: _ => Ordering.gt
  | _ :: _, [] => Ordering.lt
  | p, q => preListCmp p q

/-- Model of `semver::Version`.  `build` is the raw build-metadata string
(empty when absent), as the crate's `BuildMetadata` stores it. -/
structure Version where
  major : Nat
  minor : Nat
  patch : Nat
  pre : List PreId
  build : List Char
deriving DecidableEq

/-- Model of `semver::Version::new`: release version with empty pre-release
and empty build metadata. -/
def Version.new (major minor patch : Nat) : Version :=
  { major := major, minor := minor, patch := patch, pre := [], build := [] }

/-- The semver crate's `Ord for Version`: compare major, minor, patch, then
pre-release, then build metadata as the final tiebreaker. -/
def Version.cmp (a b : Version) : Ordering :=
  match natCmp a.major b.major with
  | Ordering.eq =>
    match natCmp a.minor b.minor with
    | Ordering.eq =>
      match natCmp a.patch b.patch with
      | Ordering.eq =>
        match prereleaseCmp a.pre b.pre with
        | Ordering.eq => buildCmp a.build b.build
        | o => o
      | o => o
    | o => o
  | o => o

/-- Rust `a < b` on `semver::Version`. -/
def Version.ltb (a b : Version) : Bool := Version.cmp a b == Ordering.lt

/-- Rust `a > b` on `semver::Version`. -/
def Version.gtb (a b : Version) : Bool := Version.cmp a b == Ordering.gt

/-- Rust `a <= b` on `semver::Version`. -/
def Version.leb (a b : Version) : Bool := !(Version.cmp a b == Ordering.gt)

/-- Rust `a >= b` on `semver::Version`. -/
def Version.geb (a b : Version) : Bool := !(Version.cmp a b == Ordering.lt)

/-- Strict numeric component of `semver::Version::parse`: decimal digits, no
leading zero (except `0` itself). -/
def parseNumStrict (cs : List Char) : Option Nat :=
  match cs with
  | [] => none
  | _ =>
    if cs.all Char.isDigit then
      if cs.length > 1 ∧ cs.head? = some '0' then none
      else some (digitsToNat cs)
    else none

/-- One pre-release identifier of `semver::Version::parse`: nonempty, ASCII
alphanumeric or hyphen characters; all-digit identifiers must have no leading
zero and parse numerically. -/
def parsePreId (cs : List Char) : Option PreId :=
  if cs = [] then none
  else if ¬ cs.all (fun c => c.isAlphanum ∨ c = '-') then none
  else if cs.all Char.isDigit then
    if cs.length > 1 ∧ cs.head? = some '0' then none
    else some (PreId.num (digitsToNat cs))
  else some (PreId.alpha cs)

/-- Rejoin the pieces of a split on `-` (the pre-release part may itself
contain hyphens). -/
def joinDash : List (List Char) → List Char
| [] => []
| [x] => x
| x :: xs => x ++ '-' :: joinDash xs

/-- One build identifier of `semver::Version::parse`: nonempty, ASCII
alphanumeric or hyphen characters (leading zeros are allowed in build
identifiers, unlike pre-release ones). -/
def validBuildId (cs : List Char) : Bool :=
  !cs.isEmpty && cs.all (fun c => c.isAlphanum || c = '-')

/-- The `MAJOR.MINOR.PATCH[-PRERELEASE]` part of `semver::Version::parse`,
storing the already-validated build string. -/
def versionParseCore (cs : List Char) (build : List Char) : Option Version :=
  match splitOnChar '-' cs with
  | [] => none
  | core :: rest =>
    match splitOnChar '.' core with
    | [a, b, c] => do
      let major ← parseNumStrict a
      let minor ← parseNumStrict b
      let patch ← parseNumStrict c
      if rest = [] then
        pure { major := major, minor := minor, patch := patch, pre := [],
               build := build }
      else do
        let pre ← (splitOnChar '.' (joinDash rest)).mapM parsePreId
        pure { major := major, minor := minor, patch := patch, pre := pre,
               build := build }
    | _ => none

/-- Model of `semver::Version::parse`: strict `MAJOR.MINOR.PATCH` with
optional `-PRERELEASE` and optional `+BUILD` (a second `+` cannot occur, since
`+` is not a valid identifier character). -/
def Version.parse (cs : List Char) : Option Version :=
  match splitOnChar '+' cs with
  | [core] => versionParseCore core []
  | [core, build] =>
    if (splitOnChar '.' build).all validBuildId then versionParseCore core build
    else none
  | _ => none

/-- Verdicts of `compare_to_latest` (src/version/semver.rs `CompareResult`;
the file itself is not under src/, but the four variants the matchers build
are fixed by src/version/matchers/npm.rs and the spec adds `NotFound`). -/
inductive CompareResult where
| Latest : CompareResult
| Outdated : CompareResult
| Newer : CompareResult
| NotFound : CompareResult
| Invalid : CompareResult
deriving DecidableEq

/-- Parsed npm version range (src/version/matchers/npm.rs `VersionRange`). -/
inductive VersionRange where
| Exact (v : Version) : VersionRange
| Caret (v : Version) : VersionRange
| Tilde (v : Version) : VersionRange
| Gte (v : Version) : VersionRange
| Gt (v : Version) : VersionRange
| Lte (v : Version) : VersionRange
| Lt (v : Version) : VersionRange
| Any : VersionRange
| WildcardMajor (major : Nat) : VersionRange
| WildcardMinor (major minor : Nat) : VersionRange
deriving DecidableEq

/-- Model of Rust `u64::from_str` on the wildcard components (decimal digits;
sign prefixes and overflow are not modelled). -/
def parseU64 (cs : List Char) : Option Nat :=
  match cs with
  | [] => none
  | _ => if cs.all Char.isDigit then some (digitsToNat cs) else none

/-- `VersionRange::parse_wildcard`: patterns `1.x` and `1.2.x` (case-insensitive `x`). -/
def VersionRange.parse_wildcard (spec : List Char) : Option VersionRange :=
  match splitOnChar '.' spec with
  | [major, x] =>
    if x = str "x" ∨ x = str "X" then (parseU64 major).map VersionRange.WildcardMajor
    else none
  | [major, minor, x] =>
    if x = str "x" ∨ x = str "X" then do
      let major ← parseU64 major
      let minor ← parseU64 minor
      pure (VersionRange.WildcardMinor major minor)
    else none
  | _ => none

/-- `VersionRange::parse`: prefix operators in source order, then `*`, then
wildcards, then exact semver. -/
def VersionRange.parse (spec0 : List Char) : Option VersionRange :=
  let spec := trimList spec0
  match stripPfx (str ">=") spec with
  | some rest => (Version.parse (trimList rest)).map VersionRange.Gte
  | none =>
    match stripPfx (str ">") spec with
    | some rest => (Version.parse (trimList rest)).map VersionRange.Gt
    | none =>
      match stripPfx (str "<=") spec with
      | some rest => (Version.parse (trimList rest)).map VersionRange.Lte
      | none =>
        match stripPfx (str "<") spec with
        | some rest => (Version.parse (trimList rest)).map VersionRange.Lt
        | none =>
          match stripPfx (str "^") spec with
          | some rest => (Version.parse (trimList rest)).map VersionRange.Caret
          | none =>
            match stripPfx (str "~") spec with
            | some rest => (Version.parse (trimList rest)).map VersionRange.Tilde
            | none =>
              if spec = str "*" then some VersionRange.Any
              else
                match VersionRange.parse_wildcard spec with
                | some range => some range
                | none => (Version.parse spec).map VersionRange.Exact

/-- `VersionRange::satisfies`: does `version` lie in the range? -/
def VersionRange.satisfies (r : VersionRange) (version : Version) : Bool :=
  match r with
  | VersionRange.Exact v => decide (version = v)
  | VersionRange.Caret v =>
    if Version.ltb version v then false
    else if v.major = 0 then
      if v.minor = 0 then
        decide (version.major = 0) && decide (version.minor = 0) &&
          decide (version.patch = v.patch)
      else
        decide (version.major = 0) && decide (version.minor = v.minor)
    else
      decide (version.major = v.major)
  | VersionRange.Tilde v =>
    Version.geb version v && decide (version.major = v.major) &&
      decide (version.minor = v.minor)
  | VersionRange.Gte v => Version.geb version v
  | VersionRange.Gt v => Version.gtb version v
  | VersionRange.Lte v => Version.leb version v
  | VersionRange.Lt v => Version.ltb version v
  | VersionRange.Any => true
  | VersionRange.WildcardMajor major => decide (version.major = major)
  | VersionRange.WildcardMinor major minor =>
    decide (version.major = major) && decide (version.minor = minor)

/-- `VersionRange::base_version`: the version the range is anchored at;
none for `*`. -/
def VersionRange.base_version (r : VersionRange) : Option Version :=
  match r with
  | VersionRange.Exact v => some v
  | VersionRange.Caret v => some v
  | VersionRange.Tilde v => some v
  | VersionRange.Gte v => some v
  | VersionRange.Gt v => some v
  | VersionRange.Lte v => some v
  | VersionRange.Lt v => some v
  | VersionRange.Any => none
  | VersionRange.WildcardMajor major => some (Version.new major 0 0)
  | VersionRange.WildcardMinor major minor => some (Version.new major minor 0)

/-- `NpmVersionMatcher::version_exists`: some available version (parsed as
strict semver) satisfies the range; false when the spec does not parse. -/
def NpmVersionMatcher.version_exists (version_spec : List Char)
    (available_versions : List (List Char)) : Bool :=
  match VersionRange.parse version_spec with
  | none => false
  | some range =>
    available_versions.any (fun v =>
      match Version.parse v with
      | some ver => range.satisfies ver
      | none => false)

/-- `NpmVersionMatcher::compare_to_latest`. -/
def NpmVersionMatcher.compare_to_latest (current_version latest_version : List Char) :
    CompareResult :=
  match VersionRange.parse current_version with
  | none => CompareResult.Invalid
  | some range =>
    match Version.parse latest_version with
    | none => CompareResult.Invalid
    | some latest =>
      if range.satisfies latest then CompareResult.Latest
      else
        match range.base_version with
        | none => CompareResult.Latest
        | some base =>
          if Version.ltb base latest then CompareResult.Outdated
          else CompareResult.Newer

/-- Modelled from the spec: the free functions `npm_version_exists` and
`npm_compare_to_latest` of src/version/matchers/npm.rs that
`PnpmCatalogMatcher` calls are not present under src/ (the file under src/
holds the same logic as methods of `NpmVersionMatcher`).  Per the spec
("Behaviourally identical to the npm matcher") and the pnpm module doc
("Uses the same version matching logic as npm"), `npm_version_exists` is the
npm matcher's `version_exists` logic. -/
def npm_version_exists (version_spec : List Char)
    (available_versions : List (List Char)) : Bool :=
  match VersionRange.parse version_spec with
  | none => false
  | some range =>
    available_versions.any (fun v =>
      match Version.parse v with
      | some ver => range.satisfies ver
      | none => false)

/-- Modelled from the spec: see `npm_version_exists`; `npm_compare_to_latest`
is the npm matcher's `compare_to_latest` logic. -/
def npm_compare_to_latest (current_version latest_version : List Char) :
    CompareResult :=
  match VersionRange.parse current_version with
  | none => CompareResult.Invalid
  | some range =>
    match Version.parse latest_version with
    | none => CompareResult.Invalid
    | some latest =>
      if range.satisfies latest then CompareResult.Latest
      else
        match range.base_version with
        | none => CompareResult.Latest
        | some base =>
          if Version.ltb base latest then CompareResult.Outdated
          else CompareResult.Newer

/-- `PnpmCatalogMatcher::version_exists` (src/version/matchers/pnpm.rs):
delegates to `npm_version_exists`. -/
def PnpmCatalogMatcher.version_exists (version_spec : List Char)
    (available_versions : List (List Char)) : Bool :=
  npm_version_exists version_spec available_versions

/-- `PnpmCatalogMatcher::compare_to_latest` (src/version/matchers/pnpm.rs):
delegates to `npm_compare_to_latest`. -/
def PnpmCatalogMatcher.compare_to_latest (current_version latest_version : List Char) :
    CompareResult :=
  npm_compare_to_latest current_version latest_version

/-- Closed ecosystem enumeration (src/parser/types.rs `RegistryType`; the file
is not under src/, but the five variants are fixed by the spec's
`RegistryKind` and by the construction sites under src/). -/
inductive RegistryType where
| GitHubActions : RegistryType
| Npm : RegistryType
| CratesIo : RegistryType
| GoProxy : RegistryType
| PnpmCatalog : RegistryType
deriving DecidableEq

/-- `PackageVersions` (src/version/types.rs): version list plus dist tags
(the `HashMap` is modelled as an association list; no claim consults it). -/
structure PackageVersions where
  versions : List (List Char)
  dist_tags : List (List Char × List Char)
deriving DecidableEq

/-- `PackageVersions::new`. -/
def PackageVersions.new (versions : List (List Char)) : PackageVersions :=
  { versions := versions, dist_tags := [] }

/-- `PackageVersions::latest`: the source returns `self.versions.first()`. -/
def PackageVersions.latest (p : PackageVersions) : Option (List Char) :=
  p.versions.head?

/-- `PackageVersions::is_empty`. -/
def PackageVersions.is_empty (p : PackageVersions) : Bool :=
  p.versions.isEmpty

/-- Rust `Option<T>` ordering used by `NpmRegistry::fetch_all_versions` when
sorting by publish timestamp: `None` sorts before `Some`. -/
def optTimeCmp (a b : Option Int) : Ordering :=
  match a, b with
  | none, none => Ordering.eq
  | none, some _ => Ordering.lt
  | some _, none => Ordering.gt
  | some x, some y =>
    if x = y then Ordering.eq else if x < y then Ordering.lt else Ordering.gt

/-- Stable insertion used to model `Vec::sort_by` (a stable sort) on
timestamped versions: an element is placed after all existing elements that
do not compare greater than it. -/
def insertByTime (x : List Char × Option Int) :
    List (List Char × Option Int) → List (List Char × Option Int)
| [] => [x]
| y :: ys =>
  if optTimeCmp x.2 y.2 = Ordering.lt then x :: y :: ys
  else y :: insertByTime x ys

/-- The sort of `NpmRegistry::fetch_all_versions`
(src/version/registries/npm.rs lines 96-113): order the `(version, timestamp)`
pairs ascending by timestamp (missing timestamps first — `None < Some`), then
keep the version strings.  Both registry clients sort this way, oldest first,
newest last. -/
def npmSortVersions (vs : List (List Char × Option Int)) : List (List Char) :=
  (vs.foldl (fun acc x => insertByTime x acc) []).map Prod.fst

/-- One cache row, keyed by `(registry, name)` (spec §4.2 `CacheEntry`). -/
structure CacheRow where
  registry : RegistryType
  name : List Char
  versions : List (List Char)
  updated_at_ms : Int
deriving DecidableEq

/-- Modelled from the spec: `Cache::get` is not under src/ (src/version/cache.rs
holds only schema creation and `table_exists`).  Per spec §4.2,
`get(registry, name)` returns the versions and timestamp of the row with that
key, if any.  The store is modelled as a row list whose key uniqueness `upsert`
maintains. -/
def Cache.get (s : List CacheRow) (r : RegistryType) (n : List Char) :
    Option (List (List Char) × Int) :=
  (s.find? (fun row => decide (row.registry = r) && decide (row.name = n))).map
    (fun row => (row.versions, row.updated_at_ms))

/-- Modelled from the spec: `Cache::upsert` is not under src/.  Per spec §4.2,
`upsert(registry, name, versions, now_ms)` replaces the entire version set for
the key and sets `updated_at_ms = now_ms`; two rows with equal key cannot
coexist. -/
def Cache.upsert (s : List CacheRow) (r : RegistryType) (n : List Char)
    (v : List (List Char)) (t : Int) : List CacheRow :=
  { registry := r, name := n, versions := v, updated_at_ms := t } ::
    s.filter (fun row => !(decide (row.registry = r) && decide (row.name = n)))

/-- An upsert request, for sequencing cache operations. -/
structure UpsertOp where
  registry : RegistryType
  name : List Char
  versions : List (List Char)
  updated_at_ms : Int

/-- Apply a list of upserts in order. -/
def Cache.applyUpserts (ops : List UpsertOp) (s : List CacheRow) : List CacheRow :=
  ops.foldl (fun st op => Cache.upsert st op.registry op.name op.versions op.updated_at_ms) s

/-- Model of a tree-sitter syntax node: kind, byte span, start position, the
child list (`Node::children`), and the named fields (`child_by_field_name`).
Field children also appear in the child list, as in tree-sitter. -/
inductive Node where
| mk (kind : List Char) (startByte endByte row col : Nat)
     (children : List Node) (fields : List (List Char × Node)) : Node

/-- Node kind. -/
def Node.kind : Node → List Char
| Node.mk k _ _ _ _ _ _ => k

/-- Node start byte (`Node::start_byte`). -/
def Node.startByte : Node → Nat
| Node.mk _ s _ _ _ _ _ => s

/-- Node end byte (`Node::end_byte`). -/
def Node.endByte : Node → Nat
| Node.mk _ _ e _ _ _ _ => e

/-- Node start row (`Node::start_position().row`). -/
def Node.row : Node → Nat
| Node.mk _ _ _ r _ _ _ => r

/-- Node start column (`Node::start_position().column`). -/
def Node.col : Node → Nat
| Node.mk _ _ _ _ c _ _ => c

/-- Children in order (`Node::children`). -/
def Node.children : Node → List Node
| Node.mk _ _ _ _ _ c _ => c

/-- Named fields (`Node::child_by_field_name` lookup table). -/
def Node.fields : Node → List (List Char × Node)
| Node.mk _ _ _ _ _ _ f => f

/-- `Node::child_by_field_name`. -/
def Node.field (n : Node) (name : List Char) : Option Node :=
  (n.fields.find? (fun p => decide (p.1 = name))).map Prod.snd

/-- All nodes reachable through children or fields. -/
def Node.childNodes (n : Node) : List Node :=
  n.children ++ n.fields.map Prod.snd

/-- Fuel-bounded descendant enumeration (the parsers only descend a fixed
number of levels). -/
def descend : Nat → Node → List Node
| 0, n => [n]
| k + 1, n => n :: n.childNodes.flatMap (descend k)

/-- Rust byte slice `&content[a..b]` on the document. -/
def sliceBytes (content : List Char) (a b : Nat) : List Char :=
  (content.drop a).take (b - a)

/-- Strip leading `"` characters (Rust `trim_start_matches('"')`). -/
def trimStartQuotes (cs : List Char) : List Char :=
  cs.dropWhile (fun c => c = '"')

/-- Strip trailing `"` characters (Rust `trim_end_matches('"')`). -/
def trimEndQuotes (cs : List Char) : List Char :=
  (cs.reverse.dropWhile (fun c => c = '"')).reverse

/-- The dequoting both parsers apply to a string node's text:
`text.trim().trim_start_matches('"').trim_end_matches('"')`. -/
def dequote (cs : List Char) : List Char :=
  trimEndQuotes (trimStartQuotes (trimList cs))

/-- `PackageJsonParser::get_string_value` /
the Cargo parser's inline dequoting: slice the node's byte range out of the
document and strip surrounding quotes. -/
def getStringValue (content : List Char) (n : Node) : List Char :=
  dequote (sliceBytes content n.startByte n.endByte)

/-- The characters strictly between a string node's delimiters. -/
def interior (content : List Char) (n : Node) : List Char :=
  sliceBytes content (n.startByte + 1) (n.endByte - 1)

/-- Well-formedness of a node with respect to the document it was parsed from:
if the node is a string token, its byte range holds a double-quote-delimited
literal whose interior neither starts nor ends with a quote character (no
escaped quote at either edge — every plain literal qualifies). -/
def strOkb (content : List Char) (n : Node) : Bool :=
  !decide (n.kind = str "string") ||
    (decide (n.endByte = n.startByte + (interior content n).length + 2) &&
     decide (sliceBytes content n.startByte n.endByte =
       '"' :: (interior content n ++ ['"'])) &&
     !decide ((interior content n).head? = some '"') &&
     !decide ((interior content n).getLast? = some '"'))

/-- One dependency record (src/parser/types.rs `PackageInfo`; the file is not
under src/, but all eight fields are fixed by the construction sites and
tests in src/parser/package_json.rs and src/parser/cargo_toml.rs). -/
structure PackageInfo where
  name : List Char
  version : List Char
  commit_hash : Option (List Char)
  registry_type : RegistryType
  start_offset : Nat
  end_offset : Nat
  line : Nat
  column : Nat
deriving DecidableEq

namespace PackageJson

/-- `PackageJsonParser::DEPENDENCY_FIELDS`. -/
def DEPENDENCY_FIELDS : List (List Char) :=
  [str "dependencies", str "devDependencies", str "peerDependencies"]

/-- The record one `pair` child of a dependency object yields in
`PackageJsonParser::extract_packages_from_object`, if any: the pair must have
`key` and `value` fields and a string value. -/
def pairInfo (content : List Char) (child : Node) : Option PackageInfo :=
  if child.kind = str "pair" then
    match child.field (str "key") with
    | none => none
    | some keyNode =>
      match child.field (str "value") with
      | none => none
      | some valueNode =>
        if valueNode.kind = str "string" then
          some { name := getStringValue content keyNode,
                 version := getStringValue content valueNode,
                 commit_hash := none,
                 registry_type := RegistryType.Npm,
                 start_offset := valueNode.startByte + 1,
                 end_offset := valueNode.endByte - 1,
                 line := valueNode.row,
                 column := valueNode.col + 1 }
        else none
  else none

/-- `PackageJsonParser::extract_packages_from_object`: one record per pair
with a string value, in child order. -/
def extract_packages_from_object (content : List Char) (objectNode : Node) :
    List PackageInfo :=
  objectNode.children.filterMap (pairInfo content)

/-- `PackageJsonParser::extract_dependencies`: for each top-level pair whose
key is a dependency field and whose value is an object, extract its packages. -/
def extract_dependencies (content : List Char) (objectNode : Node) :
    List PackageInfo :=
  objectNode.children.flatMap (fun child =>
    if child.kind = str "pair" then
      match child.field (str "key") with
      | none => []
      | some keyNode =>
        if getStringValue content keyNode ∈ DEPENDENCY_FIELDS then
          match child.field (str "value") with
          | none => []
          | some valueNode =>
            if valueNode.kind = str "object" then
              extract_packages_from_object content valueNode
            else []
        else []
    else [])

/-- `PackageJsonParser::parse`, from the tree-sitter root node down (the
string-to-tree step is the external tree-sitter library): requires the first
child of the root to be an object. -/
def parseTree (root : Node) (content : List Char) : List PackageInfo :=
  match root.children.head? with
  | some document =>
    if document.kind = str "object" then extract_dependencies content document
    else []
  | none => []

end PackageJson

namespace CargoToml

/-- `CargoTomlParser::DEPENDENCY_TABLES`. -/
def DEPENDENCY_TABLES : List (List Char) :=
  [str "dependencies", str "dev-dependencies", str "build-dependencies"]

/-- A version hit: `(version, start_offset, end_offset, line, column)`. -/
abbrev VersionHit := List Char × Nat × Nat × Nat × Nat

/-- The version tuple a string node yields (quotes stripped, span moved one
byte inside the quotes). -/
def stringHit (content : List Char) (child : Node) : VersionHit :=
  (getStringValue content child,
   child.startByte + 1, child.endByte - 1, child.row, child.col + 1)

/-- One step of the inner loop of
`CargoTomlParser::extract_version_from_inline_table` over one pair's children:
track whether the last `bare_key` was `version` and capture the first string
that follows one. -/
def inlineStep (content : List Char) (acc : Bool × Option VersionHit) (child : Node) :
    Bool × Option VersionHit :=
  match acc.2 with
  | some _ => acc
  | none =>
    if child.kind = str "bare_key" then
      (decide (sliceBytes content child.startByte child.endByte = str "version"), none)
    else if child.kind = str "string" ∧ acc.1 = true then
      (acc.1, some (stringHit content child))
    else acc

/-- Inner loop of `CargoTomlParser::extract_version_from_inline_table` over one
pair of the inline table. -/
def versionFromPair (content : List Char) (pair : Node) : Option VersionHit :=
  (pair.children.foldl (inlineStep content) (false, none)).2

/-- `CargoTomlParser::extract_version_from_inline_table`: first pair that
contains a `version = "…"` entry wins. -/
def versionFromInline (content : List Char) (tableNode : Node) : Option VersionHit :=
  tableNode.children.findSome? (fun child =>
    if child.kind = str "pair" then versionFromPair content child else none)

/-- One step of `CargoTomlParser::extract_package_from_pair` over the pair's
children: keep the last seen key and the last seen version source (a string
child, or an inline table — whose extraction may fail). -/
def pairStep (content : List Char) (acc : Option (List Char) × Option VersionHit)
    (child : Node) : Option (List Char) × Option VersionHit :=
  if child.kind = str "bare_key" ∨ child.kind = str "dotted_key" then
    (some (sliceBytes content child.startByte child.endByte), acc.2)
  else if child.kind = str "string" then
    (acc.1, some (stringHit content child))
  else if child.kind = str "inline_table" then
    (acc.1, versionFromInline content child)
  else acc

/-- `CargoTomlParser::extract_package_from_pair` as an `Option`-valued record. -/
def pairRecord (content : List Char) (pair : Node) : Option PackageInfo :=
  match pair.children.foldl (pairStep content) (none, none) with
  | (some name, some (version, start_offset, end_offset, line, column)) =>
    some { name := name, version := version, commit_hash := none,
           registry_type := RegistryType.CratesIo,
           start_offset := start_offset, end_offset := end_offset,
           line := line, column := column }
  | _ => none

/-- The name of a table: the text of its first `bare_key` or `dotted_key`
child (`CargoTomlParser::process_table`). -/
def tableName (content : List Char) (tableNode : Node) : Option (List Char) :=
  (tableNode.children.find?
    (fun c => decide (c.kind = str "bare_key") || decide (c.kind = str "dotted_key"))).map
    (fun c => sliceBytes content c.startByte c.endByte)

/-- `CargoTomlParser::process_table`: only tables whose header starts with `[`
and whose name is a dependency table contribute; each `pair` child may yield
one record. -/
def process_table (content : List Char) (tableNode : Node) : List PackageInfo :=
  match tableNode.children.head? with
  | none => []
  | some header =>
    if header.kind = str "[" then
      match tableName content tableNode with
      | none => []
      | some name =>
        if name ∈ DEPENDENCY_TABLES then
          tableNode.children.filterMap (fun c =>
            if c.kind = str "pair" then pairRecord content c else none)
        else []
    else []

/-- `CargoTomlParser::parse` from the tree-sitter root node down: process each
top-level `table` child. -/
def parseTree (root : Node) (content : List Char) : List PackageInfo :=
  root.children.flatMap (fun c =>
    if c.kind = str "table" then process_table content c else [])

end CargoToml

/-! Concrete documents and their tree-sitter trees, used by witnesses and
counterexamples.  Byte offsets, rows and columns are those tree-sitter
reports for the given content. -/

/-- The document `{"dependencies":{"a":"1"}}`. -/
def jsonContent : List Char := str "\x7b\"dependencies\":\x7b\"a\":\"1\"\x7d\x7d"

/-- Key node `"a"`. -/
def jsonKeyA : Node := Node.mk (str "string") 17 20 0 17 [] []

/-- Value node `"1"`. -/
def jsonValA : Node := Node.mk (str "string") 21 24 0 21 [] []

/-- Pair `"a": "1"`. -/
def jsonPairA : Node :=
  Node.mk (str "pair") 17 24 0 17
    [jsonKeyA, Node.mk (str ":") 20 21 0 20 [] [], jsonValA]
    [(str "key", jsonKeyA), (str "value", jsonValA)]

/-- Inner object `{"a":"1"}`. -/
def jsonObjInner : Node :=
  Node.mk (str "object") 16 25 0 16
    [Node.mk (str "\x7b") 16 17 0 16 [] [], jsonPairA,
     Node.mk (str "\x7d") 24 25 0 24 [] []] []

/-- Key node `"dependencies"`. -/
def jsonKeyDeps : Node := Node.mk (str "string") 1 15 0 1 [] []

/-- Pair `"dependencies": {...}`. -/
def jsonPairDeps : Node :=
  Node.mk (str "pair") 1 25 0 1
    [jsonKeyDeps, Node.mk (str ":") 15 16 0 15 [] [], jsonObjInner]
    [(str "key", jsonKeyDeps), (str "value", jsonObjInner)]

/-- Top-level object. -/
def jsonObj : Node :=
  Node.mk (str "object") 0 26 0 0
    [Node.mk (str "\x7b") 0 1 0 0 [] [], jsonPairDeps,
     Node.mk (str "\x7d") 25 26 0 25 [] []] []

/-- Root (`document`) node of `jsonContent`. -/
def jsonRoot : Node := Node.mk (str "document") 0 26 0 0 [jsonObj] []

/-- The record the parser emits from `jsonContent`. -/
def jsonPkg : PackageInfo :=
  { name := str "a", version := str "1", commit_hash := none,
    registry_type := RegistryType.Npm,
    start_offset := 22, end_offset := 23, line := 0, column := 22 }

/-- The document `{"dependencies":{"a":"x\""}}` — the version literal contains
an escaped quote. -/
def cexContent : List Char := str "\x7b\"dependencies\":\x7b\"a\":\"x\\\"\"\x7d\x7d"

/-- Key node `"a"`. -/
def cexKeyA : Node := Node.mk (str "string") 17 20 0 17 [] []

/-- Value node for the token `"x\""`. -/
def cexValA : Node := Node.mk (str "string") 21 26 0 21 [] []

/-- Pair `"a": "x\""`. -/
def cexPairA : Node :=
  Node.mk (str "pair") 17 26 0 17
    [cexKeyA, Node.mk (str ":") 20 21 0 20 [] [], cexValA]
    [(str "key", cexKeyA), (str "value", cexValA)]

/-- Inner object of `cexContent`. -/
def cexObjInner : Node :=
  Node.mk (str "object") 16 27 0 16
    [Node.mk (str "\x7b") 16 17 0 16 [] [], cexPairA,
     Node.mk (str "\x7d") 26 27 0 26 [] []] []

/-- Key node `"dependencies"`. -/
def cexKeyDeps : Node := Node.mk (str "string") 1 15 0 1 [] []

/-- Pair `"dependencies": {...}` of `cexContent`. -/
def cexPairDeps : Node :=
  Node.mk (str "pair") 1 27 0 1
    [cexKeyDeps, Node.mk (str ":") 15 16 0 15 [] [], cexObjInner]
    [(str "key", cexKeyDeps), (str "value", cexObjInner)]

/-- Top-level object of `cexContent`. -/
def cexObj : Node :=
  Node.mk (str "object") 0 28 0 0
    [Node.mk (str "\x7b") 0 1 0 0 [] [], cexPairDeps,
     Node.mk (str "\x7d") 27 28 0 27 [] []] []

/-- Root node of `cexContent`. -/
def cexRoot : Node := Node.mk (str "document") 0 28 0 0 [cexObj] []

/-- The record the parser emits from `cexContent`: the stored version is `x\`
(both quotes stripped from the right), while the byte span still covers `x\"`. -/
def cexPkg : PackageInfo :=
  { name := str "a", version := str "x\\", commit_hash := none,
    registry_type := RegistryType.Npm,
    start_offset := 22, end_offset := 25, line := 0, column := 22 }

/-- The document `[dependencies]\nserde = "1.0"`. -/
def tomlContent : List Char := str "[dependencies]\nserde = \"1.0\""

/-- String node of the token `"1.0"`. -/
def tomlStr : Node := Node.mk (str "string") 23 28 1 8 [] []

/-- Pair `serde = "1.0"`. -/
def tomlPair : Node :=
  Node.mk (str "pair") 15 28 1 0
    [Node.mk (str "bare_key") 15 20 1 0 [] [],
     Node.mk (str "=") 21 22 1 6 [] [], tomlStr] []

/-- Table `[dependencies]`. -/
def tomlTable : Node :=
  Node.mk (str "table") 0 28 0 0
    [Node.mk (str "[") 0 1 0 0 [] [],
     Node.mk (str "bare_key") 1 13 0 1 [] [],
     Node.mk (str "]") 13 14 0 13 [] [], tomlPair] []

/-- Root node of `tomlContent`. -/
def tomlRoot : Node := Node.mk (str "document") 0 28 0 0 [tomlTable] []

/-- The record the parser emits from `tomlContent`. -/
def tomlPkg : PackageInfo :=
  { name := str "serde", version := str "1.0", commit_hash := none,
    registry_type := RegistryType.CratesIo,
    start_offset := 24, end_offset := 27, line := 1, column := 9 }

/-- The document `[workspace.dependencies]\nserde = "1.0"`. -/
def wsContent : List Char := str "[workspace.dependencies]\nserde = \"1.0\""

/-- String node of the token `"1.0"` in `wsContent`. -/
def wsStr : Node := Node.mk (str "string") 33 38 1 8 [] []

/-- Pair `serde = "1.0"` in `wsContent`. -/
def wsPair : Node :=
  Node.mk (str "pair") 25 38 1 0
    [Node.mk (str "bare_key") 25 30 1 0 [] [],
     Node.mk (str "=") 31 32 1 6 [] [], wsStr] []

/-- Table `[workspace.dependencies]`. -/
def wsTable : Node :=
  Node.mk (str "table") 0 38 0 0
    [Node.mk (str "[") 0 1 0 0 [] [],
     Node.mk (str "dotted_key") 1 23 0 1 [] [],
     Node.mk (str "]") 23 24 0 23 [] [], wsPair] []

/-- Root node of `wsContent`. -/
def wsRoot : Node := Node.mk (str "document") 0 38 0 0 [wsTable] []

/-- The record the serde pair of `wsContent` would yield, were its table
processed. -/
def wsPkg : PackageInfo :=
  { name := str "serde", version := str "1.0", commit_hash := none,
    registry_type := RegistryType.CratesIo,
    start_offset := 34, end_offset := 37, line := 1, column := 9 }

/-! Helper lemmas. -/

theorem natCmp_self (a : Nat) : natCmp a a = Ordering.eq := by
  simp [natCmp]

theorem charCmp_self (a : Char) : charCmp a a = Ordering.eq := by
  simp [charCmp]

theorem listCharCmp_self (l : List Char) : listCharCmp l l = Ordering.eq := by
  induction l with
  | nil => rfl
  | cons a t ih => simp [listCharCmp, charCmp_self, ih]

theorem preIdCmp_self (p : PreId) : PreId.cmp p p = Ordering.eq := by
  cases p <;> simp [PreId.cmp, natCmp_self, listCharCmp_self]

theorem preListCmp_self (l : List PreId) : preListCmp l l = Ordering.eq := by
  induction l with
  | nil => rfl
  | cons a t ih => simp [preListCmp, preIdCmp_self, ih]

theorem prereleaseCmp_self (l : List PreId) : prereleaseCmp l l = Ordering.eq := by
  cases l with
  | nil => rfl
  | cons a t => simp [prereleaseCmp, preListCmp_self]

theorem buildIdCmp_self (a : List Char) : buildIdCmp a a = Ordering.eq := by
  unfold buildIdCmp
  cases h : a.all Char.isDigit <;>
    simp [natCmp_self, listCharCmp_self]

theorem buildListCmp_self (l : List (List Char)) : buildListCmp l l = Ordering.eq := by
  induction l with
  | nil => rfl
  | cons a t ih => simp [buildListCmp, buildIdCmp_self, ih]

theorem buildCmp_self (b : List Char) : buildCmp b b = Ordering.eq := by
  unfold buildCmp
  exact buildListCmp_self _

theorem versionCmp_self (v : Version) : Version.cmp v v = Ordering.eq := by
  unfold Version.cmp
  rw [natCmp_self, natCmp_self, natCmp_self, prereleaseCmp_self, buildCmp_self]

theorem Version.ltb_self (v : Version) : Version.ltb v v = false := by
  unfold Version.ltb
  rw [versionCmp_self]
  rfl

theorem mem_of_head?_eq {α : Type} {l : List α} {a : α} (h : l.head? = some a) : a ∈ l := by
  cases l with
  | nil => simp at h
  | cons b t => simp at h; simp [h]

theorem mem_descend_self (k : Nat) (n : Node) : n ∈ descend k n := by
  cases k <;> simp [descend]

theorem mem_descend_step {c n a : Node} {k : Nat} (hc : c ∈ n.childNodes)
    (ha : a ∈ descend k c) : a ∈ descend (k + 1) n := by
  simp only [descend, List.mem_cons, List.mem_flatMap]
  exact Or.inr ⟨c, hc, ha⟩

theorem mem_childNodes_of_child {c n : Node} (h : c ∈ n.children) : c ∈ n.childNodes :=
  List.mem_append_left _ h

theorem mem_childNodes_of_field {n m : Node} {name : List Char}
    (h : n.field name = some m) : m ∈ n.childNodes := by
  unfold Node.field at h
  obtain ⟨p, hp, hpm⟩ := Option.map_eq_some'.mp h
  have hmem : p ∈ n.fields := List.mem_of_find?_eq_some hp
  exact List.mem_append_right _ (hpm ▸ List.mem_map_of_mem Prod.snd hmem)

theorem dropWhile_id_of_head {p : Char → Bool} {l : List Char}
    (h : ∀ c, l.head? = some c → p c = false) : l.dropWhile p = l := by
  cases l with
  | nil => rfl
  | cons a t =>
    rw [List.dropWhile_cons]
    simp [h a rfl]

theorem trimList_id {l : List Char}
    (h1 : ∀ c, l.head? = some c → c.isWhitespace = false)
    (h2 : ∀ c, l.getLast? = some c → c.isWhitespace = false) : trimList l = l := by
  unfold trimList
  rw [dropWhile_id_of_head h1]
  rw [dropWhile_id_of_head (fun c hc => h2 c (by rwa [List.head?_reverse] at hc))]
  exact List.reverse_reverse l

theorem trimEndQuotes_concat {l : List Char} (h : ∀ c, l.getLast? = some c → c ≠ '"') :
    trimEndQuotes (l ++ ['"']) = l := by
  unfold trimEndQuotes
  rw [List.reverse_append]
  rw [show (['"'].reverse ++ l.reverse) = '"' :: l.reverse from by simp]
  rw [List.dropWhile_cons]
  simp only [decide_True, if_true]
  rw [dropWhile_id_of_head (fun c hc => by
    have hcl : l.getLast? = some c := by rwa [List.head?_reverse] at hc
    simp [h c hcl])]
  exact List.reverse_reverse l

theorem dequote_quoted (s : List Char) (h1 : s.head? ≠ some '"')
    (h2 : s.getLast? ≠ some '"') : dequote ('"' :: (s ++ ['"'])) = s := by
  unfold dequote
  have hq : ('"' : Char).isWhitespace = false := by decide
  have hlast : ('"' :: (s ++ ['"'])).getLast? = some '"' := by
    rw [show ('"' :: (s ++ ['"'])) = ('"' :: s) ++ ['"'] from by simp]
    exact List.getLast?_concat _
  rw [trimList_id (fun c hc => by simp at hc; rw [← hc]; exact hq)
      (fun c hc => by rw [hlast] at hc; simp at hc; rw [← hc]; exact hq)]
  unfold trimStartQuotes
  rw [List.dropWhile_cons]
  simp only [decide_True, if_true]
  cases hs : s with
  | nil => simp [trimEndQuotes]
  | cons a t =>
    have ha : a ≠ '"' := by
      intro hcontra
      exact h1 (by rw [hs, hcontra]; rfl)
    rw [show ((a :: t) ++ ['"']) = a :: (t ++ ['"']) from rfl]
    rw [List.dropWhile_cons]
    rw [show (decide (a = '"')) = false from by simp [ha]]
    rw [if_neg (by simp)]
    rw [show (a :: (t ++ ['"'])) = ((a :: t) ++ ['"']) from rfl]
    exact trimEndQuotes_concat (fun c hc => by
      intro hcontra
      exact h2 (by rw [hs, hc, hcontra]))

theorem strOk_spans {content : List Char} {n : Node} (hk : n.kind = str "string")
    (hok : strOkb content n = true) :
    getStringValue content n = interior content n ∧
    n.endByte = n.startByte + (interior content n).length + 2 := by
  unfold strOkb at hok
  simp only [hk, decide_True, Bool.not_true, Bool.false_or, Bool.and_eq_true,
    Bool.not_eq_true', decide_eq_true_eq, decide_eq_false_iff_not] at hok
  obtain ⟨⟨⟨hlen, hslice⟩, hh⟩, hl⟩ := hok
  refine ⟨?_, hlen⟩
  unfold getStringValue
  rw [hslice]
  exact dequote_quoted _ hh hl

theorem json_value_node {content : List Char} {objectNode : Node} {P : PackageInfo}
    (h : P ∈ PackageJson.extract_dependencies content objectNode) :
    ∃ child ∈ objectNode.children, ∃ depObj, child.field (str "value") = some depObj ∧
      ∃ pairN ∈ depObj.children, ∃ valN, pairN.field (str "value") = some valN ∧
        valN.kind = str "string" ∧
        P.version = getStringValue content valN ∧
        P.start_offset = valN.startByte + 1 ∧
        P.end_offset = valN.endByte - 1 := by
  unfold PackageJson.extract_dependencies at h
  rw [List.mem_flatMap] at h
  obtain ⟨child, hchild, h⟩ := h
  refine ⟨child, hchild, ?_⟩
  split at h
  case isFalse => simp at h
  split at h
  case h_1 => simp at h
  case h_2 _ keyNode hkey =>
    split at h
    case isFalse => simp at h
    split at h
    case h_1 => simp at h
    case h_2 _ depObj hval =>
      split at h
      case isFalse => simp at h
      refine ⟨depObj, hval, ?_⟩
      unfold PackageJson.extract_packages_from_object at h
      rw [List.mem_filterMap] at h
      obtain ⟨pairN, hpairN, hpi⟩ := h
      refine ⟨pairN, hpairN, ?_⟩
      unfold PackageJson.pairInfo at hpi
      split at hpi
      case isFalse => simp at hpi
      split at hpi
      case h_1 => simp at hpi
      case h_2 _ keyN hkeyN =>
        split at hpi
        case h_1 => simp at hpi
        case h_2 _ valN hvalN =>
          split at hpi
          case isFalse => simp at hpi
          case isTrue hstr =>
            refine ⟨valN, hvalN, hstr, ?_⟩
            obtain rfl := Option.some.inj hpi
            exact ⟨rfl, rfl, rfl⟩

theorem inline_hit_origin {content : List Char} {hit : CargoToml.VersionHit} :
    ∀ (l : List Node) (acc : Bool × Option CargoToml.VersionHit),
      (l.foldl (CargoToml.inlineStep content) acc).2 = some hit →
      acc.2 = some hit ∨
        ∃ c ∈ l, c.kind = str "string" ∧ hit = CargoToml.stringHit content c := by
  intro l
  induction l with
  | nil => intro acc h; exact Or.inl h
  | cons c t ih =>
    intro acc h
    rw [List.foldl_cons] at h
    rcases ih (CargoToml.inlineStep content acc c) h with hacc | ⟨c', hc', hk, he⟩
    · unfold CargoToml.inlineStep at hacc
      split at hacc
      case h_1 x hx => exact Or.inl (hx ▸ hacc)
      case h_2 hx =>
        split at hacc
        case isTrue => simp at hacc
        split at hacc
        case isTrue hcond =>
          simp at hacc
          exact Or.inr ⟨c, List.mem_cons_self c t, hcond.1, hacc.symm⟩
        case isFalse => exact Or.inl hacc
    · exact Or.inr ⟨c', List.mem_cons_of_mem c hc', hk, he⟩

theorem versionFromPair_origin {content : List Char} {q : Node} {hit : CargoToml.VersionHit}
    (h : CargoToml.versionFromPair content q = some hit) :
    ∃ vn ∈ q.children, vn.kind = str "string" ∧ hit = CargoToml.stringHit content vn := by
  unfold CargoToml.versionFromPair at h
  rcases inline_hit_origin q.children (false, none) h with hacc | hres
  · simp at hacc
  · exact hres

theorem versionFromInline_origin {content : List Char} {tbl : Node}
    {hit : CargoToml.VersionHit}
    (h : CargoToml.versionFromInline content tbl = some hit) :
    ∃ q ∈ tbl.children, q.kind = str "pair" ∧
      CargoToml.versionFromPair content q = some hit := by
  unfold CargoToml.versionFromInline at h
  obtain ⟨q, hq, hqe⟩ := List.exists_of_findSome?_eq_some h
  refine ⟨q, hq, ?_⟩
  split at hqe
  case isTrue hk => exact ⟨hk, hqe⟩
  case isFalse => simp at hqe

theorem pair_hit_origin {content : List Char} {hit : CargoToml.VersionHit} :
    ∀ (l : List Node) (acc : Option (List Char) × Option CargoToml.VersionHit),
      (l.foldl (CargoToml.pairStep content) acc).2 = some hit →
      acc.2 = some hit ∨
        ∃ c ∈ l, (c.kind = str "string" ∧ hit = CargoToml.stringHit content c) ∨
          (c.kind = str "inline_table" ∧
            CargoToml.versionFromInline content c = some hit) := by
  intro l
  induction l with
  | nil => intro acc h; exact Or.inl h
  | cons c t ih =>
    intro acc h
    rw [List.foldl_cons] at h
    rcases ih (CargoToml.pairStep content acc c) h with hacc | ⟨c', hc', hres⟩
    · unfold CargoToml.pairStep at hacc
      split at hacc
      case isTrue => exact Or.inl hacc
      split at hacc
      case isTrue hcond =>
        simp at hacc
        exact Or.inr ⟨c, List.mem_cons_self c t, Or.inl ⟨hcond, hacc.symm⟩⟩
      split at hacc
      case isTrue hcond =>
        exact Or.inr ⟨c, List.mem_cons_self c t, Or.inr ⟨hcond, hacc⟩⟩
      case isFalse => exact Or.inl hacc
    · exact Or.inr ⟨c', List.mem_cons_of_mem c hc', hres⟩

theorem pair_name_origin {content : List Char} {nm : List Char} :
    ∀ (l : List Node) (acc : Option (List Char) × Option CargoToml.VersionHit),
      (l.foldl (CargoToml.pairStep content) acc).1 = some nm →
      acc.1 = some nm ∨
        ∃ c ∈ l, (c.kind = str "bare_key" ∨ c.kind = str "dotted_key") ∧
          nm = sliceBytes content c.startByte c.endByte := by
  intro l
  induction l with
  | nil => intro acc h; exact Or.inl h
  | cons c t ih =>
    intro acc h
    rw [List.foldl_cons] at h
    rcases ih (CargoToml.pairStep content acc c) h with hacc | ⟨c', hc', hres⟩
    · unfold CargoToml.pairStep at hacc
      split at hacc
      case isTrue hcond =>
        simp at hacc
        exact Or.inr ⟨c, List.mem_cons_self c t, hcond, hacc.symm⟩
      split at hacc
      case isTrue => exact Or.inl hacc
      split at hacc
      case isTrue => exact Or.inl hacc
      case isFalse => exact Or.inl hacc
    · exact Or.inr ⟨c', List.mem_cons_of_mem c hc', hres⟩

theorem pairRecord_fields {content : List Char} {q : Node} {P : PackageInfo}
    (h : CargoToml.pairRecord content q = some P) :
    (q.children.foldl (CargoToml.pairStep content) (none, none)).1 = some P.name ∧
    (q.children.foldl (CargoToml.pairStep content) (none, none)).2 =
      some (P.version, P.start_offset, P.end_offset, P.line, P.column) ∧
    P.commit_hash = none ∧ P.registry_type = RegistryType.CratesIo := by
  unfold CargoToml.pairRecord at h
  split at h
  case h_1 _ name version start_offset end_offset line column hst =>
    obtain rfl := Option.some.inj h
    rw [hst]
    exact ⟨rfl, rfl, rfl, rfl⟩
  case h_2 => simp at h

theorem toml_member_decomp {root : Node} {content : List Char} {P : PackageInfo}
    (h : P ∈ CargoToml.parseTree root content) :
    ∃ t ∈ root.children, t.kind = str "table" ∧
      (∃ hd, t.children.head? = some hd ∧ hd.kind = str "[") ∧
      (∃ nm, CargoToml.tableName content t = some nm ∧
        nm ∈ CargoToml.DEPENDENCY_TABLES) ∧
      ∃ pairN ∈ t.children, pairN.kind = str "pair" ∧
        CargoToml.pairRecord content pairN = some P := by
  unfold CargoToml.parseTree at h
  rw [List.mem_flatMap] at h
  obtain ⟨t, ht, h⟩ := h
  refine ⟨t, ht, ?_⟩
  split at h
  case isFalse => simp at h
  case isTrue htbl =>
    refine ⟨htbl, ?_⟩
    unfold CargoToml.process_table at h
    split at h
    case h_1 => simp at h
    case h_2 _ hd hhd =>
      split at h
      case isFalse => simp at h
      case isTrue hhdk =>
        refine ⟨⟨hd, hhd, hhdk⟩, ?_⟩
        split at h
        case h_1 => simp at h
        case h_2 _ nm hnm =>
          split at h
          case isFalse => simp at h
          case isTrue hnmem =>
            refine ⟨⟨nm, hnm, hnmem⟩, ?_⟩
            rw [List.mem_filterMap] at h
            obtain ⟨pairN, hpairN, hrec⟩ := h
            refine ⟨pairN, hpairN, ?_⟩
            split at hrec
            case isTrue hk => exact ⟨hk, hrec⟩
            case isFalse => simp at hrec

theorem toml_member_intro {root : Node} {content : List Char} {P : PackageInfo}
    {t pairN hd : Node} {nm : List Char}
    (ht : t ∈ root.children) (htbl : t.kind = str "table")
    (hhd : t.children.head? = some hd) (hhdk : hd.kind = str "[")
    (hnm : CargoToml.tableName content t = some nm)
    (hnmem : nm ∈ CargoToml.DEPENDENCY_TABLES)
    (hpairN : pairN ∈ t.children) (hpk : pairN.kind = str "pair")
    (hrec : CargoToml.pairRecord content pairN = some P) :
    P ∈ CargoToml.parseTree root content := by
  unfold CargoToml.parseTree
  rw [List.mem_flatMap]
  refine ⟨t, ht, ?_⟩
  rw [if_pos htbl]
  unfold CargoToml.process_table
  rw [hhd]
  dsimp only
  rw [if_pos hhdk]
  rw [hnm]
  dsimp only
  rw [if_pos hnmem]
  rw [List.mem_filterMap]
  refine ⟨pairN, hpairN, ?_⟩
  rw [if_pos hpk]
  exact hrec

theorem span_from_string_node {content : List Char} {valN : Node} {P : PackageInfo}
    (hok : strOkb content valN = true) (hstr : valN.kind = str "string")
    (hv : P.version = getStringValue content valN)
    (hs : P.start_offset = valN.startByte + 1)
    (he : P.end_offset = valN.endByte - 1) :
    sliceBytes content P.start_offset P.end_offset = P.version ∧
    P.end_offset - P.start_offset = P.version.length := by
  obtain ⟨hval, hlen⟩ := strOk_spans hstr hok
  rw [hv, hs, he, hval]
  refine ⟨rfl, ?_⟩
  omega

/-- Parser span integrity, claim C2 amended: every record either manifest
parser emits from a document whose string tokens are double-quote-delimited
with no escaped quote at either edge of the literal has its byte span equal to
its stored version text. -/
theorem spec_c2_span_integrity (root : Node) (content : List Char) (P : PackageInfo)
    (hwf : (descend 8 root).all (strOkb content) = true)
    (hmem : P ∈ PackageJson.parseTree root content ∨
      P ∈ CargoToml.parseTree root content) :
    sliceBytes content P.start_offset P.end_offset = P.version ∧
    P.end_offset - P.start_offset = P.version.length := by
  have hwf' : ∀ n ∈ descend 8 root, strOkb content n = true := List.all_eq_true.mp hwf
  rcases hmem with hjson | htoml
  · unfold PackageJson.parseTree at hjson
    split at hjson
    case h_2 => simp at hjson
    case h_1 document hroot =>
      split at hjson
      case isFalse => simp at hjson
      case isTrue hdock =>
        obtain ⟨child, hchild, depObj, hval, pairN, hpairN, valN, hvalN, hstr, hv, hs, he⟩ :=
          json_value_node hjson
        have hdesc : valN ∈ descend 8 root :=
          mem_descend_step (mem_childNodes_of_child (mem_of_head?_eq hroot))
            (mem_descend_step (mem_childNodes_of_child hchild)
              (mem_descend_step (mem_childNodes_of_field hval)
                (mem_descend_step (mem_childNodes_of_child hpairN)
                  (mem_descend_step (mem_childNodes_of_field hvalN)
                    (mem_descend_self 3 valN)))))
        exact span_from_string_node (hwf' valN hdesc) hstr hv hs he
  · obtain ⟨t, ht, htbl, _, _, pairN, hpairN, hpk, hrec⟩ := toml_member_decomp htoml
    obtain ⟨hname, hhit, _, _⟩ := pairRecord_fields hrec
    rcases pair_hit_origin pairN.children (none, none) hhit with habs | ⟨c, hc, hcase⟩
    · simp at habs
    rcases hcase with ⟨hstr, hhit_eq⟩ | ⟨hitbl, hinline⟩
    · unfold CargoToml.stringHit at hhit_eq
      simp only [Prod.mk.injEq] at hhit_eq
      obtain ⟨hv, hs, he, _⟩ := hhit_eq
      have hdesc : c ∈ descend 8 root :=
        mem_descend_step (mem_childNodes_of_child ht)
          (mem_descend_step (mem_childNodes_of_child hpairN)
            (mem_descend_step (mem_childNodes_of_child hc)
              (mem_descend_self 5 c)))
      exact span_from_string_node (hwf' c hdesc) hstr hv hs he
    · obtain ⟨q, hq, hqk, hvp⟩ := versionFromInline_origin hinline
      obtain ⟨vn, hvn, hvnk, hhit_eq⟩ := versionFromPair_origin hvp
      unfold CargoToml.stringHit at hhit_eq
      simp only [Prod.mk.injEq] at hhit_eq
      obtain ⟨hv, hs, he, _⟩ := hhit_eq
      have hdesc : vn ∈ descend 8 root :=
        mem_descend_step (mem_childNodes_of_child ht)
          (mem_descend_step (mem_childNodes_of_child hpairN)
            (mem_descend_step (mem_childNodes_of_child hc)
              (mem_descend_step (mem_childNodes_of_child hq)
                (mem_descend_step (mem_childNodes_of_child hvn)
                  (mem_descend_self 3 vn)))))
      exact span_from_string_node (hwf' vn hdesc) hvnk hv hs he

/-- Claim C2 counterexample: on the document `{"dependencies":{"a":"x\""}}`
(whose version literal ends in an escaped quote) the parser emits a record
whose byte span is `x\"` while its stored version text is `x\` — the claimed
unconditional span equation is false, in both its slice and its length form. -/
theorem spec_c2_cex :
    PackageJson.parseTree cexRoot cexContent = [cexPkg] ∧
    sliceBytes cexContent cexPkg.start_offset cexPkg.end_offset ≠ cexPkg.version ∧
    cexPkg.end_offset - cexPkg.start_offset ≠ cexPkg.version.length := by decide

/-- Witness for C2: the amended theorem applied to the concrete document
`{"dependencies":{"a":"1"}}` and the record the parser emits from it. -/
theorem spec_c2_span_integrity_witness :
    sliceBytes jsonContent jsonPkg.start_offset jsonPkg.end_offset = jsonPkg.version ∧
    jsonPkg.end_offset - jsonPkg.start_offset = jsonPkg.version.length :=
  spec_c2_span_integrity jsonRoot jsonContent jsonPkg (by decide) (Or.inl (by decide))

/-- Claim C4 amended: `CargoTomlParser::parse` yields exactly one record per
`pair` with a key and a bare string or version-bearing inline table, under the
top-level tables named `dependencies`, `dev-dependencies` and
`build-dependencies` only — not `workspace.dependencies`, which the parser
ignores, and no other tables. -/
theorem spec_c4_cargo_tables (root : Node) (content : List Char) (P : PackageInfo) :
    (P ∈ CargoToml.parseTree root content ↔
      ∃ t ∈ root.children, t.kind = str "table" ∧
        (∃ hd, t.children.head? = some hd ∧ hd.kind = str "[") ∧
        (∃ nm, CargoToml.tableName content t = some nm ∧
          nm ∈ CargoToml.DEPENDENCY_TABLES) ∧
        ∃ q ∈ t.children, q.kind = str "pair" ∧
          CargoToml.pairRecord content q = some P) ∧
    (∀ (q : Node) (Q : PackageInfo), CargoToml.pairRecord content q = some Q →
      (∃ k ∈ q.children, (k.kind = str "bare_key" ∨ k.kind = str "dotted_key") ∧
        Q.name = sliceBytes content k.startByte k.endByte) ∧
      ∃ v ∈ q.children, v.kind = str "string" ∨ v.kind = str "inline_table") := by
  constructor
  · constructor
    · exact toml_member_decomp
    · rintro ⟨t, ht, htbl, ⟨hd, hhd, hhdk⟩, ⟨nm, hnm, hnmem⟩, q, hq, hqk, hrec⟩
      exact toml_member_intro ht htbl hhd hhdk hnm hnmem hq hqk hrec
  · intro q Q hrec
    obtain ⟨hname, hhit, _, _⟩ := pairRecord_fields hrec
    constructor
    · rcases pair_name_origin q.children (none, none) hname with habs | ⟨k, hk, hkk, hkeq⟩
      · simp at habs
      · exact ⟨k, hk, hkk, hkeq⟩
    · rcases pair_hit_origin q.children (none, none) hhit with habs | ⟨c, hc, hcase⟩
      · simp at habs
      · rcases hcase with ⟨hstr, _⟩ | ⟨hitbl, _⟩
        · exact ⟨c, hc, Or.inl hstr⟩
        · exact ⟨c, hc, Or.inr hitbl⟩

/-- Witness for C4: on `[dependencies]\nserde = "1.0"`, the amended theorem's
backward direction puts the serde record in the parser output. -/
theorem spec_c4_cargo_tables_witness :
    tomlPkg ∈ CargoToml.parseTree tomlRoot tomlContent :=
  (spec_c4_cargo_tables tomlRoot tomlContent tomlPkg).1.mpr
    ⟨tomlTable, List.mem_cons_self _ _, rfl,
     ⟨Node.mk (str "[") 0 1 0 0 [] [], rfl, rfl⟩,
     ⟨str "dependencies", by decide, by decide⟩,
     tomlPair, List.Mem.tail _ (List.Mem.tail _ (List.Mem.tail _ (List.Mem.head _))), rfl,
     by decide⟩

/-- Claim C4 counterexample: the document `[workspace.dependencies]\nserde = "1.0"`
holds a qualifying bare-string pair under the `workspace.dependencies` table
(it would yield `wsPkg`), yet the parser output is empty — the claim's
`workspace.dependencies` clause is false of the code. -/
theorem spec_c4_cex :
    CargoToml.parseTree wsRoot wsContent = [] ∧
    wsTable ∈ wsRoot.children ∧ wsTable.kind = str "table" ∧
    wsTable.children.head? = some (Node.mk (str "[") 0 1 0 0 [] []) ∧
    CargoToml.tableName wsContent wsTable = some (str "workspace.dependencies") ∧
    wsPair ∈ wsTable.children ∧ wsPair.kind = str "pair" ∧
    CargoToml.pairRecord wsContent wsPair = some wsPkg :=
  ⟨by decide, List.mem_cons_self _ _, rfl, rfl, by decide,
   List.Mem.tail _ (List.Mem.tail _ (List.Mem.tail _ (List.Mem.head _))), rfl, by decide⟩

/-- Claim C1, evaluated at the failing input: the registry normalisation sorts
oldest-first (here the three lodash versions with their publish instants, as in
the repository's own npm.rs test), yet `PackageVersions::latest` returns the
FIRST element `4.17.19` — the oldest — not the last element `4.17.21` the
claim (and the registry ordering) designates as latest. -/
theorem spec_c1_latest_is_first :
    npmSortVersions
      [(str "4.17.21", some 1613835736), (str "4.17.19", some 1594228480),
       (str "4.17.20", some 1597337634)] =
      [str "4.17.19", str "4.17.20", str "4.17.21"] ∧
    (PackageVersions.new [str "4.17.19", str "4.17.20", str "4.17.21"]).latest =
      some (str "4.17.19") ∧
    (PackageVersions.new
      [str "4.17.19", str "4.17.20", str "4.17.21"]).versions.getLast? =
      some (str "4.17.21") ∧
    str "4.17.19" ≠ str "4.17.21" := by decide

/-- Claim C3 counterexample: "admits v iff v = R" fails in two ways.  For the
caret range `^0.0.3-alpha` (major 0, minor 0) the matcher admits the distinct
version `0.0.3`, because beyond the lower bound it checks only the
major/minor/patch triple.  And even for the release base `^0.0.3` it admits
`0.0.3+b` (a version `semver::Version::parse` accepts), because `0.0.3+b`
compares not-less than `0.0.3` — build metadata is an `Ord` tiebreaker with
absence first — yet `Eq` distinguishes the two. -/
theorem spec_c3_cex :
    ((VersionRange.Caret
      { major := 0, minor := 0, patch := 3,
        pre := [PreId.alpha (str "alpha")], build := [] }).satisfies
      { major := 0, minor := 0, patch := 3, pre := [], build := [] } = true ∧
    ({ major := 0, minor := 0, patch := 3, pre := [], build := [] } : Version) ≠
      { major := 0, minor := 0, patch := 3,
        pre := [PreId.alpha (str "alpha")], build := [] }) ∧
    (Version.parse (str "0.0.3+b") =
      some { major := 0, minor := 0, patch := 3, pre := [], build := str "b" } ∧
    (VersionRange.Caret (Version.new 0 0 3)).satisfies
      { major := 0, minor := 0, patch := 3, pre := [], build := str "b" } = true ∧
    ({ major := 0, minor := 0, patch := 3, pre := [], build := str "b" } : Version) ≠
      Version.new 0 0 3) := by
  decide

/-- Claim C3 amended: for every caret range `^R` with `R.major = 0`,
`R.minor = 0` and `R` a release with no build metadata, and every version `v`
with no build metadata, `satisfies` admits `v` exactly when `v = R` (with
build metadata present, the triple-equality check also admits `v` differing
from `R` only in build). -/
theorem spec_c3_caret_zero_zero (R v : Version) (h0 : R.major = 0) (h1 : R.minor = 0)
    (hp : R.pre = []) (hbR : R.build = []) (hbv : v.build = []) :
    (VersionRange.Caret R).satisfies v = true ↔ v = R := by
  unfold VersionRange.satisfies
  dsimp only
  constructor
  · intro h
    cases hlt : Version.ltb v R with
    | true => rw [hlt] at h; simp at h
    | false =>
      rw [hlt] at h
      rw [if_neg (by simp)] at h
      rw [if_pos h0, if_pos h1] at h
      simp only [Bool.and_eq_true, decide_eq_true_eq] at h
      obtain ⟨⟨hma, hmi⟩, hpa⟩ := h
      cases hvp : v.pre with
      | nil =>
        obtain ⟨Rma, Rmi, Rpa, Rpre, Rbuild⟩ := R
        obtain ⟨vma, vmi, vpa, vpre, vbuild⟩ := v
        simp_all
      | cons a t =>
        exfalso
        have hcmp : Version.cmp v R = Ordering.lt := by
          unfold Version.cmp
          rw [hma, h0, natCmp_self, hmi, h1, natCmp_self, hpa, natCmp_self, hvp, hp]
          rfl
        rw [show Version.ltb v R = true from by
          unfold Version.ltb; rw [hcmp]; rfl] at hlt
        simp at hlt
  · intro h
    subst h
    rw [Version.ltb_self]
    simp [h0, h1]

/-- Witness for C3: the amended equivalence applied at `R = v = 0.0.3` shows
the caret range `^0.0.3` admits `0.0.3`. -/
theorem spec_c3_caret_zero_zero_witness :
    (VersionRange.Caret (Version.new 0 0 3)).satisfies (Version.new 0 0 3) = true :=
  (spec_c3_caret_zero_zero (Version.new 0 0 3) (Version.new 0 0 3)
    rfl rfl rfl rfl rfl).mpr rfl

/-- Claim C5 counterexample: against the unparseable latest string
`not-a-version`, the code returns `Invalid` for the spec `*`, not `Latest`,
so the claim is false for arbitrary strings. -/
theorem spec_c5_cex :
    NpmVersionMatcher.compare_to_latest (str "*") (str "not-a-version") =
      CompareResult.Invalid ∧
    CompareResult.Invalid ≠ CompareResult.Latest := by decide

/-- Claim C5 amended: for every latest string that parses as strict semver,
`compare_to_latest("*", s)` returns `Latest`. -/
theorem spec_c5_star_latest (s : List Char) (v : Version)
    (hs : Version.parse s = some v) :
    NpmVersionMatcher.compare_to_latest (str "*") s = CompareResult.Latest := by
  unfold NpmVersionMatcher.compare_to_latest
  rw [show VersionRange.parse (str "*") = some VersionRange.Any from by decide]
  dsimp only
  rw [hs]
  rfl

/-- Witness for C5: the amended theorem at the parseable latest `1.2.3`. -/
theorem spec_c5_star_latest_witness :
    NpmVersionMatcher.compare_to_latest (str "*") (str "1.2.3") = CompareResult.Latest :=
  spec_c5_star_latest (str "1.2.3") (Version.new 1 2 3) (by decide)

/-- Claim C6: every spec string the npm range parser rejects makes
`compare_to_latest` return `Invalid` and `version_exists` return false, for
all latest strings and version lists. -/
theorem spec_c6_unparseable (spec : List Char) (h : VersionRange.parse spec = none)
    (latest : List Char) (avail : List (List Char)) :
    NpmVersionMatcher.compare_to_latest spec latest = CompareResult.Invalid ∧
    NpmVersionMatcher.version_exists spec avail = false := by
  unfold NpmVersionMatcher.compare_to_latest NpmVersionMatcher.version_exists
  rw [h]
  exact ⟨rfl, rfl⟩

/-- Witness for C6: the theorem at the rejected spec `not-a-version`. -/
theorem spec_c6_unparseable_witness :
    NpmVersionMatcher.compare_to_latest (str "not-a-version") (str "1.0.0") =
      CompareResult.Invalid ∧
    NpmVersionMatcher.version_exists (str "not-a-version") [str "1.0.0"] = false :=
  spec_c6_unparseable (str "not-a-version") (by decide) (str "1.0.0") [str "1.0.0"]

/-- Claim C7: the pnpm-catalog matcher returns exactly the npm matcher's
results on all inputs, for both `version_exists` and `compare_to_latest`. -/
theorem spec_c7_pnpm_equals_npm (spec cur latest : List Char)
    (avail : List (List Char)) :
    PnpmCatalogMatcher.version_exists spec avail =
      NpmVersionMatcher.version_exists spec avail ∧
    PnpmCatalogMatcher.compare_to_latest cur latest =
      NpmVersionMatcher.compare_to_latest cur latest :=
  ⟨rfl, rfl⟩

theorem find?_filter_of_imp {α : Type} (l : List α) (p q : α → Bool)
    (h : ∀ x, p x = true → q x = true) : (l.filter q).find? p = l.find? p := by
  induction l with
  | nil => rfl
  | cons a t ih =>
    by_cases hq : q a = true
    · rw [List.filter_cons_of_pos hq]
      by_cases hp : p a = true
      · rw [List.find?_cons_of_pos _ hp, List.find?_cons_of_pos _ hp]
      · rw [List.find?_cons_of_neg _ (by simp [hp]),
          List.find?_cons_of_neg _ (by simp [hp])]
        exact ih
    · have hp : p a = false := by
        cases hpa : p a with
        | true => exact absurd (h a hpa) hq
        | false => rfl
      rw [List.filter_cons_of_neg (by simp [hq])]
      rw [List.find?_cons_of_neg _ (by simp [hp])]
      exact ih

theorem get_upsert_same (s : List CacheRow) (r : RegistryType) (n : List Char)
    (V : List (List Char)) (t : Int) :
    Cache.get (Cache.upsert s r n V t) r n = some (V, t) := by
  unfold Cache.get Cache.upsert
  rw [List.find?_cons_of_pos _ (by simp)]
  rfl

theorem get_upsert_other {r : RegistryType} {n : List Char} {r' : RegistryType}
    {n' : List Char} (h : ¬(r' = r ∧ n' = n)) (s : List CacheRow)
    (V' : List (List Char)) (t' : Int) :
    Cache.get (Cache.upsert s r' n' V' t') r n = Cache.get s r n := by
  unfold Cache.get Cache.upsert
  rw [List.find?_cons_of_neg _ (by
    simp only [Bool.and_eq_true, decide_eq_true_eq, not_and]
    intro hr hn
    exact h ⟨hr, hn⟩)]
  rw [find?_filter_of_imp]
  intro x hx
  simp only [Bool.and_eq_true, decide_eq_true_eq] at hx
  simp only [Bool.not_eq_true', Bool.and_eq_false_iff, decide_eq_false_iff_not]
  by_cases hr : x.registry = r'
  · right
    intro hn
    exact h ⟨hr ▸ hx.1.symm ▸ rfl, hn ▸ hx.2.symm ▸ rfl⟩
  · left
    exact hr

theorem foldl_upsert_preserves {r : RegistryType} {n : List Char}
    {V : List (List Char)} {t : Int} :
    ∀ (ops : List UpsertOp) (st : List CacheRow),
      (∀ op ∈ ops, ¬(op.registry = r ∧ op.name = n)) →
      Cache.get st r n = some (V, t) →
      Cache.get (Cache.applyUpserts ops st) r n = some (V, t) := by
  intro ops
  induction ops with
  | nil => intro st _ hst; exact hst
  | cons op rest ih =>
    intro st hops hst
    unfold Cache.applyUpserts
    rw [List.foldl_cons]
    have hne : ¬(op.registry = r ∧ op.name = n) := hops op (List.mem_cons_self _ _)
    have hstep := get_upsert_other hne st op.versions op.updated_at_ms
    have ih' := ih (Cache.upsert st op.registry op.name op.versions op.updated_at_ms)
      (fun o ho => hops o (List.mem_cons_of_mem _ ho))
      (by rw [hstep]; exact hst)
    unfold Cache.applyUpserts at ih'
    exact ih'

/-- Claim C8: cache round-trip — after `upsert(r, n, V, t)` and any sequence
of further upserts whose keys all differ from `(r, n)`, `get(r, n)` returns
exactly `(V, t)`. -/
theorem spec_c8_cache_roundtrip (s : List CacheRow) (r : RegistryType) (n : List Char)
    (V : List (List Char)) (t : Int) (ops : List UpsertOp)
    (hops : ∀ op ∈ ops, ¬(op.registry = r ∧ op.name = n)) :
    Cache.get (Cache.applyUpserts ops (Cache.upsert s r n V t)) r n = some (V, t) :=
  foldl_upsert_preserves ops (Cache.upsert s r n V t) hops (get_upsert_same s r n V t)

/-- Witness for C8: a concrete round-trip through an unrelated intervening
upsert. -/
theorem spec_c8_cache_roundtrip_witness :
    Cache.get
      (Cache.applyUpserts
        [{ registry := RegistryType.CratesIo, name := str "serde",
           versions := [str "1.0.0"], updated_at_ms := 7 }]
        (Cache.upsert [] RegistryType.Npm (str "lodash") [str "4.17.21"] 5))
      RegistryType.Npm (str "lodash") = some ([str "4.17.21"], 5) :=
  spec_c8_cache_roundtrip [] RegistryType.Npm (str "lodash") [str "4.17.21"] 5
    [{ registry := RegistryType.CratesIo, name := str "serde",
       versions := [str "1.0.0"], updated_at_ms := 7 }] (by decide)

/-- Claim C9: for a parseable spec whose range has a base version and a
parseable latest, when the range does not admit the latest and the base
equals the latest, `compare_to_latest` returns `Newer` (the else-branch maps
base ≥ latest to `Newer`). -/
theorem spec_c9_newer_when_base_eq_latest (spec latest_s : List Char)
    (range : VersionRange) (base latest : Version)
    (hr : VersionRange.parse spec = some range)
    (hl : Version.parse latest_s = some latest)
    (hs : range.satisfies latest = false)
    (hb : range.base_version = some base)
    (heq : base = latest) :
    NpmVersionMatcher.compare_to_latest spec latest_s = CompareResult.Newer := by
  unfold NpmVersionMatcher.compare_to_latest
  rw [hr]
  dsimp only
  rw [hl]
  dsimp only
  rw [hs]
  simp only [Bool.false_eq_true, if_false]
  rw [hb]
  dsimp only
  subst heq
  rw [Version.ltb_self]
  rfl

/-- Witness for C9: the spec `>1.2.3` against the latest `1.2.3` yields
`Newer`. -/
theorem spec_c9_newer_witness :
    NpmVersionMatcher.compare_to_latest (str ">1.2.3") (str "1.2.3") =
      CompareResult.Newer :=
  spec_c9_newer_when_base_eq_latest (str ">1.2.3") (str "1.2.3")
    (VersionRange.Gt (Version.new 1 2 3)) (Version.new 1 2 3) (Version.new 1 2 3)
    (by decide) (by decide) (by decide) (by decide) rfl

/-- Claim C10: `PackageVersions::latest` is total — it returns `none` exactly
when the version list is empty and `some` of a list element otherwise, and
`is_empty` is true exactly when `latest` is `none`. -/
theorem spec_c10_latest_total (p : PackageVersions) :
    (p.latest = none ↔ p.versions = []) ∧
    (∀ s, p.latest = some s → s ∈ p.versions) ∧
    (p.is_empty = true ↔ p.latest = none) := by
  unfold PackageVersions.latest PackageVersions.is_empty
  refine ⟨?_, ?_, ?_⟩
  · exact List.head?_eq_none_iff
  · intro s hs
    exact mem_of_head?_eq hs
  · simp [List.isEmpty_iff, List.head?_eq_none_iff]

/-- Witness for C10: `latest` of a one-element collection is that element,
which the theorem places in the version list. -/
theorem spec_c10_latest_total_witness :
    str "1.0.0" ∈ (PackageVersions.new [str "1.0.0"]).versions :=
  (spec_c10_latest_total (PackageVersions.new [str "1.0.0"])).2.1 (str "1.0.0") rfl

/-- Fidelity check: the embedded npm matcher reproduces the outcomes of the
test table of src/version/matchers/npm.rs on representative rows. -/
theorem npm_matcher_matches_rust_tests :
    VersionRange.parse (str "*") = some VersionRange.Any ∧
    VersionRange.parse (str "^1.2.3") = some (VersionRange.Caret (Version.new 1 2 3)) ∧
    VersionRange.parse (str ">=1.0.0") = some (VersionRange.Gte (Version.new 1 0 0)) ∧
    VersionRange.parse (str "1.2.x") = some (VersionRange.WildcardMinor 1 2) ∧
    VersionRange.parse (str "1.X") = some (VersionRange.WildcardMajor 1) ∧
    VersionRange.parse (str "invalid") = none ∧
    Version.parse (str "1.2.3-alpha.1") =
      some { major := 1, minor := 2, patch := 3,
             pre := [PreId.alpha (str "alpha"), PreId.num 1], build := [] } ∧
    Version.parse (str "1.2.3+build.01") =
      some { major := 1, minor := 2, patch := 3, pre := [],
             build := str "build.01" } ∧
    Version.parse (str "1.2.3-rc.1+build") =
      some { major := 1, minor := 2, patch := 3,
             pre := [PreId.alpha (str "rc"), PreId.num 1],
             build := str "build" } ∧
    Version.parse (str "1.2.3+") = none ∧
    Version.parse (str "01.2.3") = none ∧
    NpmVersionMatcher.compare_to_latest (str "1.0.0") (str "2.0.0") =
      CompareResult.Outdated ∧
    NpmVersionMatcher.compare_to_latest (str "2.0.0") (str "1.0.0") =
      CompareResult.Newer ∧
    NpmVersionMatcher.compare_to_latest (str "^1.0.0") (str "1.9.9") =
      CompareResult.Latest ∧
    NpmVersionMatcher.compare_to_latest (str "invalid") (str "1.0.0") =
      CompareResult.Invalid ∧
    NpmVersionMatcher.compare_to_latest (str "1.0.0") (str "invalid") =
      CompareResult.Invalid ∧
    NpmVersionMatcher.version_exists (str "^1.2.3") [str "1.2.2", str "1.3.0"] = true ∧
    NpmVersionMatcher.version_exists (str "^0.0.3") [str "0.0.4", str "0.1.0"] = false ∧
    NpmVersionMatcher.version_exists (str "~1.2.3") [str "1.3.0", str "2.0.0"] = false ∧
    NpmVersionMatcher.version_exists (str "<=1.0.0") [str "1.0.0", str "0.9.0"] = true ∧
    NpmVersionMatcher.version_exists (str "1.x") [str "0.9.9", str "2.0.0"] = false := by
  decide

/-- Fidelity check: the embedded parsers on the concrete documents. -/
theorem parsers_on_concrete_documents :
    PackageJson.parseTree jsonRoot jsonContent = [jsonPkg] ∧
    PackageJson.parseTree cexRoot cexContent = [cexPkg] ∧
    CargoToml.parseTree tomlRoot tomlContent = [tomlPkg] ∧
    CargoToml.parseTree wsRoot wsContent = [] := by decide

end VersionLsp
